import Mathlib

/-!
Shallow embedding of the `iter_view` Rust crate (src/lib.rs).

The crate defines a trait

  pub trait IterView<'a> {
      type Item: 'a;
      type Iter: Iterator<Item = Self::Item>;
      fn iter(&'a self) -> Self::Iter;
  }

together with implementations for `&T`, `[T; N]`, `Vec<T>`, `[T]`,
`Option<T>`, `Result<T, E>`, `Box<T>`, `HashMap<K, V>`, further std
collections, and a function-backed adapter `FuncIterView` built by the
free function `iter`.

Modelling choices:
- a Rust shared reference `&T` is modelled by the wrapper `Ref T`
  (a read-only handle around a value);
- a Rust `Iterator` is modelled by the `Iterator` class: a state type
  with a `next` operation returning `Option item × state`, exactly the
  translation used for Rust iterators in Lean models of Rust code;
- `slice::Iter`, `option::Iter`, `result::Iter` and `hash_map::Iter`
  are all fused list cursors over the borrowed elements, modelled by
  `ListIter`; `Range<usize>` (used in the crate's function-adapter
  test) is modelled by `RangeIter`;
- `Vec<T>` and `[T]` are modelled as lists, `[T; N]` as a list with a
  length invariant, `HashMap<K, V>` as its internal entry sequence
  (some fixed order of distinct-key entries, matching the std
  guarantee that an unmutated map iterates deterministically).
-/

namespace IterViewSpec

/-- A Rust shared reference `&T`: a read-only handle on a value. -/
structure Ref (α : Type) where
  val : α
deriving DecidableEq, Repr

/-- The Rust `Iterator` trait: a cursor state `ι` with a `next`
operation yielding either an element and the advanced cursor, or
`none` for completion (the cursor is returned unchanged by the
embedding of the fused std iterators below). -/
class Iterator (ι : Type) (α : outParam Type) where
  next : ι → Option α × ι

/-- The results of the first `n` calls to `next`, in order: the
observable trace of a traversal, completion signals included. -/
def steps {ι α : Type} [Iterator ι α] : Nat → ι → List (Option α)
  | 0, _ => []
  | n + 1, it =>
    (Iterator.next it).1 :: steps n (Iterator.next it).2

/-- The cursor state after `n` calls to `next`. -/
def advanceN {ι α : Type} [Iterator ι α] : Nat → ι → ι
  | 0, it => it
  | n + 1, it => advanceN n (Iterator.next it).2

/-- Fused list cursor: the common behaviour of `slice::Iter`,
`option::Iter`, `result::Iter` and `hash_map::Iter`: yields the
remaining elements in order, then reports completion forever. -/
structure ListIter (α : Type) where
  rest : List α
deriving DecidableEq, Repr

instance {α : Type} : Iterator (ListIter α) α where
  next it :=
    match it.rest with
    | [] => (none, it)
    | x :: xs => (some x, ⟨xs⟩)

/-- `Range<usize>`: `start..stop`, as produced by `0..*v` in the
crate's test for the function-backed adapter. -/
structure RangeIter where
  start : Nat
  stop : Nat
deriving DecidableEq, Repr

instance : Iterator RangeIter Nat where
  next r :=
    if r.start < r.stop then (some r.start, ⟨r.start + 1, r.stop⟩)
    else (none, r)

/-- The `IterView` trait: an element type, a traversal type that is an
`Iterator` over it, and the borrowing `iter` operation. -/
class IterView (σ : Type) where
  Item : Type
  Iter : Type
  itInst : Iterator Iter Item
  iter : σ → Iter

attribute [instance] IterView.itInst

/-- `slice::Iter` creation: iterating a slice `&[T]` yields a shared
reference to each element in order; `self[..].iter()` in the source. -/
def sliceIter {α : Type} (data : List α) : ListIter (Ref α) :=
  ⟨data.map Ref.mk⟩

/-- `Vec<T>`, modelled by its element sequence. -/
structure Vec (α : Type) where
  data : List α
deriving DecidableEq, Repr

/-- `impl IterView for Vec<T>`: `self[..].iter()`. -/
instance {α : Type} : IterView (Vec α) where
  Item := Ref α
  Iter := ListIter (Ref α)
  itInst := inferInstance
  iter v := sliceIter v.data

/-- `[T; N]`: a fixed-size array, an element sequence of length `n`. -/
structure ArrayN (α : Type) (n : Nat) where
  data : List α
  len : data.length = n
deriving DecidableEq, Repr

/-- `impl IterView for [T; N]`: `self[..].iter()`. -/
instance {α : Type} {n : Nat} : IterView (ArrayN α n) where
  Item := Ref α
  Iter := ListIter (Ref α)
  itInst := inferInstance
  iter a := sliceIter a.data

/-- `[T]`: a slice view, modelled by its element sequence. -/
structure Slice (α : Type) where
  data : List α
deriving DecidableEq, Repr

/-- `impl IterView for [T]`: `self.iter()`. -/
instance {α : Type} : IterView (Slice α) where
  Item := Ref α
  Iter := ListIter (Ref α)
  itInst := inferInstance
  iter s := sliceIter s.data

/-- `impl IterView for Option<T>`: `Option::iter` yields a reference
to the contained value if present, nothing otherwise. -/
instance {α : Type} : IterView (Option α) where
  Item := Ref α
  Iter := ListIter (Ref α)
  itInst := inferInstance
  iter o :=
    match o with
    | some v => ⟨[Ref.mk v]⟩
    | none => ⟨[]⟩

/-- `impl IterView for Result<T, E>` (`Result` is Lean's `Except`
with the payloads swapped): `Result::iter` yields a reference to the
success value if `Ok`, nothing if `Err`. -/
instance {ε α : Type} : IterView (Except ε α) where
  Item := Ref α
  Iter := ListIter (Ref α)
  itInst := inferInstance
  iter r :=
    match r with
    | Except.ok v => ⟨[Ref.mk v]⟩
    | Except.error _ => ⟨[]⟩

/-- `Box<T>`: an owned indirection around a value. -/
structure Box (α : Type) where
  val : α

/-- `impl IterView for Box<T> where T: IterView`: delegates to the
inner value, `self.as_ref().iter()`. -/
instance {σ : Type} [inst : IterView σ] : IterView (Box σ) where
  Item := IterView.Item σ
  Iter := IterView.Iter σ
  itInst := inst.itInst
  iter b := IterView.iter b.val

/-- `impl IterView for &'a T where T: IterView`: delegates to the
referent, `(*self).iter()` (reference transparency). -/
instance {σ : Type} [inst : IterView σ] : IterView (Ref σ) where
  Item := IterView.Item σ
  Iter := IterView.Iter σ
  itInst := inst.itInst
  iter r := IterView.iter r.val

/-- `HashMap<K, V>`, modelled by its internal entry sequence: some
fixed order of entries with pairwise distinct keys. An unmutated std
`HashMap` iterates its entries in a fixed internal order. -/
structure HashMap (κ ν : Type) where
  entries : List (κ × ν)
  nodupKeys : (entries.map Prod.fst).Nodup

/-- `impl IterView for HashMap<K, V>`: `hash_map::Iter` yields a pair
of a key reference and the corresponding value reference per entry. -/
instance {κ ν : Type} : IterView (HashMap κ ν) where
  Item := Ref κ × Ref ν
  Iter := ListIter (Ref κ × Ref ν)
  itInst := inferInstance
  iter m := ⟨m.entries.map (fun e => (Ref.mk e.1, Ref.mk e.2))⟩

/-- `PhantomData<T>`: no runtime data. -/
structure PhantomData (α : Type) where
  mk ::

/-- `FuncIterView<'a, T, O, F, I>`: the function-backed adapter,
holding the projection function, the anchor reference, and the two
phantom markers. -/
structure FuncIterView (T O I : Type) where
  f : Ref O → I
  o : Ref O
  t : PhantomData T
  i : PhantomData I

/-- The free function `iter`: builds a `FuncIterView` from an anchor
reference and a projection function. -/
def iter {T O I : Type} (o : Ref O) (f : Ref O → I) : FuncIterView T O I :=
  ⟨f, o, ⟨⟩, ⟨⟩⟩

/-- `impl IterView for FuncIterView`: `(self.f)(self.o)`. -/
instance {T O I : Type} [instI : Iterator I T] :
    IterView (FuncIterView T O I) where
  Item := T
  Iter := I
  itInst := instI
  iter fv := fv.f fv.o

/-- The spec's generic consumer loop, as explicit state passing: the
source value paired with a live traversal; one step advances only the
traversal. -/
def stepPairN {σ ι α : Type} [Iterator ι α] : Nat → σ × ι → σ × ι
  | 0, s => s
  | n + 1, s => stepPairN n (s.1, (Iterator.next s.2).2)

end IterViewSpec

namespace IterViewSpec

theorem listIter_next_nil {α : Type} :
    Iterator.next (ListIter.mk ([] : List α)) = (none, ListIter.mk []) := rfl

theorem listIter_next_cons {α : Type} (x : α) (xs : List α) :
    Iterator.next (ListIter.mk (x :: xs)) = (some x, ListIter.mk xs) := rfl

theorem steps_nil {α : Type} (k : Nat) :
    steps k (ListIter.mk ([] : List α)) = List.replicate k none := by
  induction k with
  | zero => rfl
  | succ n ih =>
    show (none : Option α) :: steps n (ListIter.mk []) = _
    rw [ih, List.replicate_succ]

theorem steps_listIter {α : Type} (l : List α) (k : Nat) :
    steps (l.length + k) (ListIter.mk l)
      = l.map some ++ List.replicate k none := by
  induction l with
  | nil => simpa using steps_nil k
  | cons x xs ih =>
    have h : (x :: xs).length + k = (xs.length + k) + 1 := by
      simp [Nat.succ_add]
    rw [h]
    show some x :: steps (xs.length + k) (ListIter.mk xs) = _
    rw [ih]
    simp

theorem steps_sliceIter {α : Type} (l : List α) (k : Nat) :
    steps (l.length + k) (sliceIter l)
      = l.map (fun x => some (Ref.mk x)) ++ List.replicate k none := by
  have h := steps_listIter (l.map Ref.mk) k
  simpa [sliceIter, List.map_map, Function.comp] using h

theorem advanceN_add {ι α : Type} [Iterator ι α] (n k : Nat) (it : ι) :
    advanceN (n + k) it = advanceN k (advanceN n it) := by
  induction n generalizing it with
  | zero => rw [Nat.zero_add]; rfl
  | succ m ih =>
    have h : m + 1 + k = (m + k) + 1 := by simp [Nat.succ_add]
    rw [h]
    show advanceN (m + k) (Iterator.next it).2 = _
    rw [ih]
    rfl

theorem advanceN_nil {α : Type} (k : Nat) :
    advanceN k (ListIter.mk ([] : List α)) = ListIter.mk [] := by
  induction k with
  | zero => rfl
  | succ n ih =>
    show advanceN n (ListIter.mk ([] : List α)) = _
    exact ih

theorem listIter_none_rest {α : Type} (it : ListIter α)
    (h : (Iterator.next it).1 = (none : Option α)) :
    it = ListIter.mk [] := by
  cases it with
  | mk rest =>
    cases rest with
    | nil => rfl
    | cons x xs =>
      rw [listIter_next_cons] at h
      exact absurd h (by simp)

theorem listIter_fused {α : Type} (it : ListIter α) (n k : Nat)
    (h : (Iterator.next (advanceN n it)).1 = (none : Option α)) :
    (Iterator.next (advanceN (n + k) it)).1 = none := by
  have h2 : advanceN n it = ListIter.mk [] := listIter_none_rest _ h
  rw [advanceN_add, h2, advanceN_nil]
  rfl

theorem stepPairN_fst {σ ι α : Type} [Iterator ι α] (n : Nat) (s : σ × ι) :
    (stepPairN n s).1 = s.1 := by
  induction n generalizing s with
  | zero => rfl
  | succ m ih => exact ih (s.1, (Iterator.next s.2).2)

/-- C1: for every populated `Vec`, fixed-size array, or slice, the
traversal produced by `iter` from a borrow yields a read-only
reference to each element in original order, then signals completion;
the three-element array `[1, 2, 3]` yields references to 1, 2, 3 in
that order then completion, identical to the `Vec` case. -/
theorem vec_array_slice_traversal_in_order :
    (∀ (α : Type) (v : Vec α), v.data ≠ [] →
      steps (v.data.length + 1) (IterView.iter v)
        = v.data.map (fun x => some (Ref.mk x)) ++ [none])
    ∧ (∀ (α : Type) (n : Nat) (a : ArrayN α n), a.data ≠ [] →
      steps (a.data.length + 1) (IterView.iter a)
        = a.data.map (fun x => some (Ref.mk x)) ++ [none])
    ∧ (∀ (α : Type) (s : Slice α), s.data ≠ [] →
      steps (s.data.length + 1) (IterView.iter s)
        = s.data.map (fun x => some (Ref.mk x)) ++ [none])
    ∧ steps 4 (IterView.iter (ArrayN.mk [1, 2, 3] rfl : ArrayN Nat 3))
        = [some (Ref.mk 1), some (Ref.mk 2), some (Ref.mk 3), none]
    ∧ steps 4 (IterView.iter (ArrayN.mk [1, 2, 3] rfl : ArrayN Nat 3))
        = steps 4 (IterView.iter (Vec.mk [1, 2, 3])) := by
  refine ⟨?_, ?_, ?_, ?_, ?_⟩
  · intro α v _
    simpa using steps_sliceIter v.data 1
  · intro α n a _
    simpa using steps_sliceIter a.data 1
  · intro α s _
    simpa using steps_sliceIter s.data 1
  · rfl
  · rfl

/-- C1 witness: the `Vec` `[9, 8]` is populated and its traversal
yields references to 9 then 8, then completion. -/
theorem vec_array_slice_traversal_in_order_witness :
    (Vec.mk ([9, 8] : List Nat)).data ≠ []
    ∧ steps ((Vec.mk ([9, 8] : List Nat)).data.length + 1)
        (IterView.iter (Vec.mk ([9, 8] : List Nat)))
        = (Vec.mk ([9, 8] : List Nat)).data.map (fun x => some (Ref.mk x))
          ++ [none] :=
  ⟨by decide,
   vec_array_slice_traversal_in_order.1 Nat (Vec.mk [9, 8]) (by decide)⟩

/-- C2: the wrapper built by the free function `iter o f` satisfies
`IterView`, and its `iter` operation returns exactly `f` applied to
the anchor; with anchor 3 and the projection producing the range
`0..bound`, the traversal yields 0, 1, 2 then completion. -/
theorem func_adapter_applies_projection :
    (∀ (T O I : Type) [Iterator I T] (o : Ref O) (f : Ref O → I),
      IterView.iter (iter o f : FuncIterView T O I) = f o)
    ∧ steps 4 (IterView.iter
        (iter (Ref.mk 3) (fun v => RangeIter.mk 0 v.val)
          : FuncIterView Nat Nat RangeIter))
        = ([some 0, some 1, some 2, none] : List (Option Nat)) := by
  constructor
  · intro T O I instI o f
    rfl
  · rfl

/-- C3: an `Option` holding `v` yields exactly one element, a
reference to `v`, then completion forever; `none` yields zero
elements, only completion signals. -/
theorem option_traversal :
    (∀ (α : Type) (v : α) (k : Nat),
      steps (1 + k) (IterView.iter (some v))
        = some (Ref.mk v) :: List.replicate k none)
    ∧ (∀ (α : Type) (k : Nat),
      steps k (IterView.iter (none : Option α)) = List.replicate k none) := by
  constructor
  · intro α v k
    simpa using steps_listIter [Ref.mk v] k
  · intro α k
    simpa using steps_nil k

/-- C4: a `Result` in the success state holding `v` yields exactly one
element, a reference to `v`, then completion forever; in the failure
state it yields zero elements regardless of the failure payload. -/
theorem result_traversal :
    (∀ (ε α : Type) (v : α) (k : Nat),
      steps (1 + k) (IterView.iter (Except.ok v : Except ε α))
        = some (Ref.mk v) :: List.replicate k none)
    ∧ (∀ (ε α : Type) (e : ε) (k : Nat),
      steps k (IterView.iter (Except.error e : Except ε α))
        = List.replicate k none) := by
  constructor
  · intro ε α v k
    simpa using steps_listIter [Ref.mk v] k
  · intro ε α e k
    simpa using steps_nil k

/-- C5: a hash map traversal yields one pair per entry, a key
reference paired with the corresponding value reference, covering
every entry exactly once (the yielded pairs are exactly the entry
sequence, with no duplicates); a two-entry map yields exactly two
pairs then completion. -/
theorem hashmap_traversal :
    (∀ (κ ν : Type) (m : HashMap κ ν),
      steps (m.entries.length + 1) (IterView.iter m)
        = m.entries.map (fun e => some (Ref.mk e.1, Ref.mk e.2)) ++ [none]
      ∧ (m.entries.map (fun e => (Ref.mk e.1, Ref.mk e.2))).Nodup)
    ∧ steps 3 (IterView.iter
        (HashMap.mk [(1, 10), (2, 20)] (by decide) : HashMap Nat Nat))
        = [some (Ref.mk 1, Ref.mk 10), some (Ref.mk 2, Ref.mk 20), none] := by
  constructor
  · intro κ ν m
    constructor
    · have h := steps_listIter
        (m.entries.map (fun e => (Ref.mk e.1, Ref.mk e.2))) 1
      simpa [List.map_map, Function.comp] using h
    · have hk := m.nodupKeys
      have hm : ((m.entries.map (fun e => (Ref.mk e.1, Ref.mk e.2))).map
          (fun p => p.1.val)).Nodup := by
        rw [List.map_map]
        exact hk
      exact List.Nodup.of_map _ hm
  · rfl

/-- C6: for a `Box` around an `IterView`-satisfying inner value, the
traversal is the very traversal of the unwrapped inner value, hence
identical element-for-element at every step count, and the element
type is the inner type's element type. -/
theorem box_delegates :
    ∀ (σ : Type) [IterView σ] (b : Box σ),
      IterView.iter b = IterView.iter b.val
      ∧ (∀ n : Nat, steps n (IterView.iter b) = steps n (IterView.iter b.val))
      ∧ IterView.Item (Box σ) = IterView.Item σ := by
  intro σ inst b
  exact ⟨rfl, fun n => rfl, rfl⟩

/-- C7: a reference to an `IterView`-satisfying type satisfies
`IterView` with the same element type and the same traversal type,
and its `iter` returns exactly the referent's traversal. -/
theorem ref_transparency :
    ∀ (σ : Type) [IterView σ] (r : Ref σ),
      IterView.iter r = IterView.iter r.val
      ∧ IterView.Item (Ref σ) = IterView.Item σ
      ∧ IterView.Iter (Ref σ) = IterView.Iter σ := by
  intro σ inst r
  exact ⟨rfl, rfl, rfl⟩

/-- C8: for every capability-satisfying value, two traversals
requested from the same unmutated value have identical output
sequences; in particular the order of a hash map traversal does not
change between two traversals of the same instance. -/
theorem repeated_traversals_identical :
    (∀ (σ : Type) [IterView σ] (v : σ)
        (t1 t2 : IterView.Iter σ) (n : Nat),
      t1 = IterView.iter v → t2 = IterView.iter v →
      steps n t1 = steps n t2)
    ∧ (∀ (κ ν : Type) (m : HashMap κ ν)
        (t1 t2 : ListIter (Ref κ × Ref ν)) (n : Nat),
      t1 = IterView.iter m → t2 = IterView.iter m →
      steps n t1 = steps n t2) := by
  constructor
  · intro σ inst v t1 t2 n h1 h2
    rw [h1, h2]
  · intro κ ν m t1 t2 n h1 h2
    rw [h1, h2]

/-- C8 witness: two traversals of the `Vec` `[5, 6]` agree on their
first three answers. -/
theorem repeated_traversals_identical_witness :
    steps 3 (ListIter.mk ([Ref.mk 5, Ref.mk 6] : List (Ref Nat)))
      = steps 3 (ListIter.mk ([Ref.mk 5, Ref.mk 6] : List (Ref Nat))) :=
  repeated_traversals_identical.1 (Vec Nat) (Vec.mk [5, 6])
    (ListIter.mk [Ref.mk 5, Ref.mk 6]) (ListIter.mk [Ref.mk 5, Ref.mk 6])
    3 rfl rfl

/-- C9: producing a traversal and advancing it any number of times
leaves the source value unchanged, and asking the unchanged source
again yields the same traversal. -/
theorem traversal_no_side_effect :
    ∀ (σ : Type) [IterView σ] (v : σ) (n : Nat),
      (stepPairN n (v, IterView.iter v)).1 = v
      ∧ IterView.iter (stepPairN n (v, IterView.iter v)).1
          = IterView.iter v := by
  intro σ inst v n
  refine ⟨stepPairN_fst n _, ?_⟩
  rw [stepPairN_fst]

/-- C10: for the built-in container traversals (`Vec`, array, slice,
`Option`, `Result`), once `next` has reported completion after some
number of advances, every later advance also reports completion. -/
theorem traversal_fused_after_completion :
    (∀ (α : Type) (v : Vec α) (n k : Nat),
      (Iterator.next (advanceN n (IterView.iter v))).1 = none →
      (Iterator.next (advanceN (n + k) (IterView.iter v))).1 = none)
    ∧ (∀ (α : Type) (m : Nat) (a : ArrayN α m) (n k : Nat),
      (Iterator.next (advanceN n (IterView.iter a))).1 = none →
      (Iterator.next (advanceN (n + k) (IterView.iter a))).1 = none)
    ∧ (∀ (α : Type) (s : Slice α) (n k : Nat),
      (Iterator.next (advanceN n (IterView.iter s))).1 = none →
      (Iterator.next (advanceN (n + k) (IterView.iter s))).1 = none)
    ∧ (∀ (α : Type) (o : Option α) (n k : Nat),
      (Iterator.next (advanceN n (IterView.iter o))).1 = none →
      (Iterator.next (advanceN (n + k) (IterView.iter o))).1 = none)
    ∧ (∀ (ε α : Type) (r : Except ε α) (n k : Nat),
      (Iterator.next (advanceN n (IterView.iter r))).1 = none →
      (Iterator.next (advanceN (n + k) (IterView.iter r))).1 = none) := by
  refine ⟨?_, ?_, ?_, ?_, ?_⟩
  · intro α v n k h
    exact listIter_fused _ n k h
  · intro α m a n k h
    exact listIter_fused _ n k h
  · intro α s n k h
    exact listIter_fused _ n k h
  · intro α o n k h
    exact listIter_fused _ n k h
  · intro ε α r n k h
    exact listIter_fused _ n k h

/-- C10 witness: the traversal of `some 5` is done after one advance,
and still done after two further advances. -/
theorem traversal_fused_after_completion_witness :
    (Iterator.next (advanceN 1 (IterView.iter (some (5 : Nat))))).1 = none
    ∧ (Iterator.next (advanceN (1 + 2) (IterView.iter (some (5 : Nat))))).1
        = none :=
  ⟨rfl, traversal_fused_after_completion.2.2.2.1 Nat (some 5) 1 2 rfl⟩

end IterViewSpec
